import Mathlib

/-!
Verification of the streak computation engine of `github-readme-stats-fast`.

The embedding models the newer `calculateStreaks` /
`fetchAllYearsCalendar` / `fetchStreak` found in
`src/unnamed/part_001` (the variant whose behaviour the specification
describes: grace-period anchor and a backward day-by-day walk).

Modelling conventions:
- A calendar date is its UTC day index, a plain `Int`.  The source works on
  ISO `YYYY-MM-DD` strings whose lexicographic order coincides with
  chronological order, and steps dates via `Date.UTC` day arithmetic,
  which is exactly `+ 1` / `- 1` on day indices.
- The JavaScript object `contributions` (`Record<string, number>`)
  is modelled as an association list `List (Int × Nat)`; JS objects
  have unique keys, captured by the well-formedness predicate `WF`.
  `lookup` models `contributions[d]` (`none` = `undefined`),
  `countOf` models `contributions[d] || 0`.
- `Object.keys(contributions).sort()` is `sortedDates`.
- The `while (true)` backward walk of the source is modelled with
  explicit fuel (`walkGo`); fuel sufficiency — i.e. termination of
  the loop — is proved, not assumed.
- The wall clock read (`new Date()`) is modelled by passing the UTC
  day `today` as a parameter; `calculateStreaksClocked` makes the
  single clock read explicit.
-/

namespace StreakFast

/-- The date-indexed activity series: the JS `contributions` object. -/
abbrev Contribs := List (Int × Nat)

/-- Model of `contributions[d]`: `none` when the key is absent. -/
def lookup (c : Contribs) (d : Int) : Option Nat :=
  (c.find? (fun p => p.1 == d)).map Prod.snd

/-- Model of `contributions[d] || 0`. -/
def countOf (c : Contribs) (d : Int) : Nat :=
  (lookup c d).getD 0

/-- The keys of the series, in insertion order. -/
def seriesKeys (c : Contribs) : List Int :=
  c.map Prod.fst

/-- Well-formedness: a JS object has unique keys. -/
def WF (c : Contribs) : Prop :=
  (seriesKeys c).Nodup

instance (c : Contribs) : Decidable (WF c) := by
  unfold WF; infer_instance

/-- Model of `Object.keys(contributions).sort()`. -/
def sortedDates (c : Contribs) : List Int :=
  List.insertionSort (· ≤ ·) (seriesKeys c)

/-- Number of entries whose key is at most `d`; the termination
measure for the backward walk. -/
def countLE (c : Contribs) (d : Int) : Nat :=
  (c.filter (fun p => decide (p.1 ≤ d))).length

/-- Model of the anchor selection in `calculateStreaks`
(`startDate`): today if it has a positive count, else the preceding
day if it does, else none. -/
def anchorDate (c : Contribs) (today : Int) : Option Int :=
  if 0 < countOf c today then some today
  else if 0 < countOf c (today - 1) then some (today - 1)
  else none

/-- Model of the backward `while (true)` walk of `calculateStreaks`:
state is (`currentStreak`, `currentStreakStart`, `currentStreakEnd`);
`fuel` bounds the number of iterations (the loop itself is unbounded;
fuel sufficiency is proved below). -/
def walkGo (c : Contribs) : Nat → Int → Nat → Option Int → Option Int →
    Nat × Option Int × Option Int
  | 0, _, streak, cs, ce => (streak, cs, ce)
  | fuel + 1, d, streak, cs, ce =>
    match lookup c d with
    | some k =>
      if 0 < k then
        walkGo c fuel (d - 1) (streak + 1) (some d) (some (ce.getD d))
      else (streak, cs, ce)
    | none => (streak, cs, ce)

/-- Fueled length of the maximal positive run ending at `d`. -/
def runLenF (c : Contribs) : Nat → Int → Nat
  | 0, _ => 0
  | fuel + 1, d => if 0 < countOf c d then runLenF c fuel (d - 1) + 1 else 0

/-- Length of the maximal contiguous positive-count run ending at `d`
(the mathematical meaning of the backward walk). -/
def runLen (c : Contribs) (d : Int) : Nat :=
  runLenF c (countLE c d + 1) d

/-- Loop state of the ascending longest-streak pass, with the same
variables as the source. -/
structure LongState where
  tempStreak : Nat
  prevDate : Option Int
  tempStreakStart : Option Int
  longestStreak : Nat
  longestStreakStart : Option Int
  longestStreakEnd : Option Int
deriving DecidableEq

/-- Initial state of the longest-streak pass. -/
def initLongState : LongState :=
  ⟨0, none, none, 0, none, none⟩

/-- One iteration of the longest-streak `for` loop of
`calculateStreaks`, translated clause by clause from the source. -/
def longStep (c : Contribs) (st : LongState) (d : Int) : LongState :=
  if 0 < countOf c d then
    let ext : Bool :=
      match st.prevDate with
      | none => true
      | some p => d - p == 1
    let ts := if ext then st.tempStreak + 1 else 1
    let tss :=
      if ext then (if st.tempStreak = 0 then some d else st.tempStreakStart)
      else some d
    if st.longestStreak < ts then
      ⟨ts, some d, tss, ts, tss, some d⟩
    else
      ⟨ts, some d, tss, st.longestStreak, st.longestStreakStart,
        st.longestStreakEnd⟩
  else
    ⟨0, some d, st.tempStreakStart, st.longestStreak, st.longestStreakStart,
      st.longestStreakEnd⟩

/-- The ascending longest-streak pass: a fold of `longStep` over a
date list. -/
def longPass (c : Contribs) (dates : List Int) (st : LongState) : LongState :=
  dates.foldl (longStep c) st

/-- Ordering invariant carried by the longest-streak pass: a running
or best streak of positive length has its start no later than its
end. -/
def LongInv (st : LongState) : Prop :=
  (0 < st.tempStreak → ∃ s p, st.tempStreakStart = some s ∧
      st.prevDate = some p ∧ s ≤ p) ∧
  (0 < st.longestStreak → ∃ s e, st.longestStreakStart = some s ∧
      st.longestStreakEnd = some e ∧ s ≤ e)

/-- The result record computed by `calculateStreaks` before display
formatting; boundary fields are dates-or-null, as in §3 of the spec. -/
structure StreakResult where
  currentStreak : Nat
  longestStreak : Nat
  totalContributions : Nat
  firstContribution : Option Int
  currentStreakStart : Option Int
  currentStreakEnd : Option Int
  longestStreakStart : Option Int
  longestStreakEnd : Option Int
deriving DecidableEq

/-- Model of `calculateStreaks(contributions)` with the UTC `today`
injected (the source reads the clock once) and the walk's fuel
explicit. -/
def calculateStreaksFuel (c : Contribs) (today : Int) (fuel : Nat) :
    StreakResult :=
  let dates := sortedDates c
  let firstContribution := dates.find? (fun d => decide (0 < countOf c d))
  let total := (dates.map (countOf c)).sum
  let w : Nat × Option Int × Option Int :=
    match anchorDate c today with
    | some a => walkGo c fuel a 0 none none
    | none => (0, none, none)
  let fin := longPass c dates initLongState
  { currentStreak := w.1
    longestStreak := fin.longestStreak
    totalContributions := total
    firstContribution := firstContribution
    currentStreakStart := w.2.1
    currentStreakEnd := w.2.2
    longestStreakStart := fin.longestStreakStart
    longestStreakEnd := fin.longestStreakEnd }

/-- The unformatted streak computation, with the proven-sufficient
fuel `c.length + 1`. -/
def calculateStreaksRaw (c : Contribs) (today : Int) : StreakResult :=
  calculateStreaksFuel c today (c.length + 1)

/-- Civil-calendar fields (year, month, day) of a day index
(Gregorian, UTC), used by the display formatter. -/
def civilFromDays (z0 : Int) : Int × Nat × Nat :=
  let z : Int := z0 + 719468
  let era : Int := (if 0 ≤ z then z else z - 146096) / 146097
  let doe : Nat := (z - era * 146097).toNat
  let yoe : Nat := (doe - doe / 1460 + doe / 36524 - doe / 146096) / 365
  let doy : Nat := doe - (365 * yoe + yoe / 4 - yoe / 100)
  let mp : Nat := (5 * doy + 2) / 153
  let day : Nat := doy - (153 * mp + 2) / 5 + 1
  let m : Nat := if mp < 10 then mp + 3 else mp - 9
  let y : Int := (yoe : Int) + era * 400 + (if m ≤ 2 then 1 else 0)
  (y, m, day)

/-- English short month names, as produced by
`toLocaleDateString("en-US", { month: "short" })`. -/
def monthName : Nat → String
  | 1 => "Jan"
  | 2 => "Feb"
  | 3 => "Mar"
  | 4 => "Apr"
  | 5 => "May"
  | 6 => "Jun"
  | 7 => "Jul"
  | 8 => "Aug"
  | 9 => "Sep"
  | 10 => "Oct"
  | 11 => "Nov"
  | 12 => "Dec"
  | _ => ""

/-- Model of `formatDateForDisplay`: a null date formats to the empty
string; otherwise "Mon D" or "Mon D, YYYY" (rendered for the UTC
calendar day). -/
def formatDateForDisplay (dateString : Option Int) (includeYear : Bool) :
    String :=
  match dateString with
  | none => ""
  | some z =>
    let f := civilFromDays z
    if includeYear then
      s!"{monthName f.2.1} {f.2.2}, {f.1}"
    else
      s!"{monthName f.2.1} {f.2.2}"

/-- The record returned by `calculateStreaks` in the source: boundary
dates already formatted for display. -/
structure StreakResultFmt where
  currentStreak : Nat
  longestStreak : Nat
  totalContributions : Nat
  firstContribution : String
  currentStreakStart : String
  currentStreakEnd : String
  longestStreakStart : String
  longestStreakEnd : String
deriving DecidableEq

/-- Display formatting applied to the raw result, exactly as in the
return statement of `calculateStreaks` (only `firstContribution` is
year-qualified). -/
def fmtResult (r : StreakResult) : StreakResultFmt :=
  { currentStreak := r.currentStreak
    longestStreak := r.longestStreak
    totalContributions := r.totalContributions
    firstContribution := formatDateForDisplay r.firstContribution true
    currentStreakStart := formatDateForDisplay r.currentStreakStart false
    currentStreakEnd := formatDateForDisplay r.currentStreakEnd false
    longestStreakStart := formatDateForDisplay r.longestStreakStart false
    longestStreakEnd := formatDateForDisplay r.longestStreakEnd false }

/-- Full model of `calculateStreaks`, producing the formatted record. -/
def calculateStreaks (c : Contribs) (today : Int) : StreakResultFmt :=
  fmtResult (calculateStreaksRaw c today)

/-- Fueled variant of the full computation, for the termination
statement. -/
def calculateStreaksFmtFuel (c : Contribs) (today : Int) (fuel : Nat) :
    StreakResultFmt :=
  fmtResult (calculateStreaksFuel c today fuel)

/-- Model of `calculateStreaks` with the wall clock explicit: the
source performs a single `new Date()` read (`now`), and both `today`
and `yesterday` (`today - 1`, inside `anchorDate`) derive from that
one reading.  `clock n` is the value the clock would show at the
n-th read; the source reads it only once, at index 0. -/
def calculateStreaksClocked (c : Contribs) (clock : Nat → Int) :
    StreakResultFmt :=
  let now := clock 0
  calculateStreaks c now

/-- Model of one JS object assignment `contributions[d] = v`:
overwrite the value if the key exists, otherwise append the new key. -/
def insertObs (m : Contribs) (d : Int) (v : Nat) : Contribs :=
  if m.any (fun p => p.1 == d) then
    m.map (fun p => if p.1 = d then (d, v) else p)
  else
    m ++ [(d, v)]

/-- Model of the aggregation loop of `fetchAllYearsCalendar`
(lines 76–88): the per-year day observations are processed in year
order (weeks and days flattened, preserving order), each assigned
into one shared map. -/
def aggregateYears (years : List (List (Int × Nat))) : Contribs :=
  years.flatten.foldl (fun m p => insertObs m p.1 p.2) []

/-- The two error tags used by the fetcher (`CustomError.USER_NOT_FOUND`
and `CustomError.GRAPHQL_ERROR`). -/
inductive ErrTag where
  | USER_NOT_FOUND
  | GRAPHQL_ERROR
deriving DecidableEq

/-- Modelled from the spec: the tagged failure type (`CustomError` of
`src/common/utils.js`, which is not among the sources) — "a single
tagged failure carrying a human-readable primary message and an
optional secondary detail message".  The secondary detail is derived
from the tag by a table we leave abstract (a parameter `sec`). -/
structure TaggedFailure where
  message : String
  tag : ErrTag
  secondaryMessage : Option String
deriving DecidableEq

/-- Modelled from the spec: the `CustomError` constructor, pairing the
primary message with its kind tag and the tag-derived secondary
detail. -/
def mkCustomError (sec : ErrTag → Option String) (message : String)
    (tag : ErrTag) : TaggedFailure :=
  ⟨message, tag, sec tag⟩

/-- Model of the JS falsiness test `!username`. -/
def usernameMissing : Option String → Bool
  | none => true
  | some s => s.isEmpty

/-- Modelled from the spec: the possible outcomes of the upstream
data-acquisition calls made inside the `try` block of `fetchStreak`
(the network layer itself is out of scope).  `yearsUserNull` /
`calUserNull`: the year-listing or calendar response resolved no user
(`throw CustomError("Could not fetch user.", USER_NOT_FOUND)` inside
the helpers); `requestThrew m`: the request itself failed with
optional message `m`; `ok`: both calls succeeded with the given
years' day observations. -/
inductive Upstream where
  | yearsUserNull
  | calUserNull (years : List Int)
  | requestThrew (message : Option String)
  | ok (years : List Int) (days : List (List (Int × Nat)))

/-- Model of `fetchStreak(username, token)`: the missing-username
check happens before the `try` block (so before any upstream call),
and every failure raised inside the `try` block — including the
`USER_NOT_FOUND`-tagged "Could not fetch user." error — is re-wrapped
by the `catch` as a `GRAPHQL_ERROR`-tagged failure carrying
`err?.message || "Could not fetch streak data."`. -/
def fetchStreakModel (sec : ErrTag → Option String)
    (username : Option String) (u : Upstream) (today : Int) :
    Except TaggedFailure StreakResult :=
  if usernameMissing username then
    .error (mkCustomError sec "Missing username parameter" .USER_NOT_FOUND)
  else
    match u with
    | .yearsUserNull =>
      .error (mkCustomError sec "Could not fetch user." .GRAPHQL_ERROR)
    | .calUserNull _ =>
      .error (mkCustomError sec "Could not fetch user." .GRAPHQL_ERROR)
    | .requestThrew m =>
      .error (mkCustomError sec (m.getD "Could not fetch streak data.")
        .GRAPHQL_ERROR)
    | .ok _ days =>
      .ok (calculateStreaksRaw (aggregateYears days) today)

/-! ### Basic lemmas about lookups and the walk measure -/

theorem lookup_cons (q : Int × Nat) (rest : Contribs) (x : Int) :
    lookup (q :: rest) x = if q.1 = x then some q.2 else lookup rest x := by
  unfold lookup
  by_cases h : q.1 = x
  · rw [List.find?_cons_of_pos _ (by simp [h])]
    simp [h]
  · rw [List.find?_cons_of_neg _ (by simp [h])]
    simp [h]

theorem countOf_pos_iff (c : Contribs) (d : Int) :
    0 < countOf c d ↔ ∃ k, lookup c d = some k ∧ 0 < k := by
  unfold countOf
  cases h : lookup c d with
  | none => simp
  | some k => simp

theorem exists_key_of_countOf_pos (c : Contribs) (d : Int)
    (h : 0 < countOf c d) : ∃ p ∈ c, p.1 = d := by
  obtain ⟨k, hk, -⟩ := (countOf_pos_iff c d).mp h
  unfold lookup at hk
  cases hf : c.find? (fun p => p.1 == d) with
  | none => simp [hf] at hk
  | some p =>
    refine ⟨p, List.mem_of_find?_eq_some hf, ?_⟩
    simpa using List.find?_some hf

theorem countLE_cons (q : Int × Nat) (rest : Contribs) (d : Int) :
    countLE (q :: rest) d = countLE rest d + (if q.1 ≤ d then 1 else 0) := by
  unfold countLE
  by_cases h : q.1 ≤ d <;> simp [List.filter_cons, h]

theorem countLE_mono (c : Contribs) {d1 d2 : Int} (h : d1 ≤ d2) :
    countLE c d1 ≤ countLE c d2 := by
  induction c with
  | nil => simp [countLE]
  | cons q rest ih =>
    rw [countLE_cons, countLE_cons]
    split_ifs with h1 h2 <;> omega

theorem countLE_decr (c : Contribs) (d : Int) (h : 0 < countOf c d) :
    countLE c (d - 1) < countLE c d := by
  obtain ⟨p, hp, hpd⟩ := exists_key_of_countOf_pos c d h
  clear h
  induction c with
  | nil => simp at hp
  | cons q rest ih =>
    rw [countLE_cons, countLE_cons]
    rcases List.mem_cons.mp hp with h1 | h1
    · subst h1
      have hm : countLE rest (d - 1) ≤ countLE rest d :=
        countLE_mono rest (by omega)
      split_ifs with h1 h2 <;> omega
    · have hrest := ih h1
      split_ifs with h1 h2 <;> omega

theorem countLE_le_length (c : Contribs) (d : Int) :
    countLE c d ≤ c.length :=
  List.length_filter_le _ c

theorem runLenF_succ (c : Contribs) (f : Nat) (d : Int) :
    runLenF c (f + 1) d = if 0 < countOf c d then runLenF c f (d - 1) + 1 else 0 :=
  rfl

theorem runLenF_stable (c : Contribs) :
    ∀ (f1 : Nat) (d : Int) (f2 : Nat), countLE c d < f1 → countLE c d < f2 →
      runLenF c f1 d = runLenF c f2 d := by
  intro f1
  induction f1 with
  | zero => intro d f2 h1 h2; omega
  | succ f ih =>
    intro d f2 h1 h2
    cases f2 with
    | zero => omega
    | succ g =>
      rw [runLenF_succ, runLenF_succ]
      by_cases hp : 0 < countOf c d
      · have hd := countLE_decr c d hp
        rw [if_pos hp, if_pos hp, ih (d - 1) g (by omega) (by omega)]
      · rw [if_neg hp, if_neg hp]

theorem runLen_eq (c : Contribs) (d : Int) :
    runLen c d = if 0 < countOf c d then runLen c (d - 1) + 1 else 0 := by
  unfold runLen
  rw [runLenF_succ]
  by_cases hp : 0 < countOf c d
  · have hd := countLE_decr c d hp
    rw [if_pos hp, if_pos hp,
      runLenF_stable c (countLE c d) (d - 1) (countLE c (d - 1) + 1)
        (by omega) (by omega)]
  · rw [if_neg hp, if_neg hp]

/-! ### Closed form of the backward walk, and its termination -/

theorem walkGo_eq (c : Contribs) :
    ∀ (fuel : Nat) (d : Int) (s : Nat) (cs ce : Option Int),
      countLE c d < fuel →
      walkGo c fuel d s cs ce =
        (s + runLen c d,
         if 0 < runLen c d then some (d - (runLen c d : Int) + 1) else cs,
         if 0 < runLen c d then some (ce.getD d) else ce) := by
  intro fuel
  induction fuel with
  | zero => intro d s cs ce h; omega
  | succ f ih =>
    intro d s cs ce h
    rw [runLen_eq]
    by_cases hp : 0 < countOf c d
    · obtain ⟨k, hk, hkpos⟩ := (countOf_pos_iff c d).mp hp
      have hd := countLE_decr c d hp
      have hstep : walkGo c (f + 1) d s cs ce =
          walkGo c f (d - 1) (s + 1) (some d) (some (ce.getD d)) := by
        simp [walkGo, hk, hkpos]
      rw [hstep, ih (d - 1) (s + 1) (some d) (some (ce.getD d)) (by omega),
        if_pos hp]
      simp only [Nat.succ_pos, if_true, Option.getD_some, Prod.mk.injEq]
      refine ⟨by omega, ?_, ?_⟩
      · rcases Nat.eq_zero_or_pos (runLen c (d - 1)) with hm | hm
        · rw [hm]
          norm_num
        · rw [if_pos hm]
          congr 1
          push_cast
          ring
      · rcases Nat.eq_zero_or_pos (runLen c (d - 1)) with hm | hm
        · rw [hm]
          simp
        · rw [if_pos hm]
    · have hstop : walkGo c (f + 1) d s cs ce = (s, cs, ce) := by
        cases hk : lookup c d with
        | none => simp [walkGo, hk]
        | some k =>
          have hk0 : ¬ 0 < k := fun hpos =>
            hp ((countOf_pos_iff c d).mpr ⟨k, hk, hpos⟩)
          simp [walkGo, hk, hk0]
      rw [hstop, if_neg hp]
      simp

theorem runLen_spec_aux (c : Contribs) :
    ∀ (N : Nat) (d : Int), countLE c d ≤ N →
      (∀ i : Nat, i < runLen c d → 0 < countOf c (d - (i : Int))) ∧
      ¬ 0 < countOf c (d - (runLen c d : Int)) := by
  intro N
  induction N with
  | zero =>
    intro d h
    have hp : ¬ 0 < countOf c d := fun hp => by
      have := countLE_decr c d hp; omega
    rw [runLen_eq, if_neg hp]
    refine ⟨fun i hi => absurd hi (by omega), ?_⟩
    simpa using hp
  | succ N ih =>
    intro d h
    by_cases hp : 0 < countOf c d
    · have hd := countLE_decr c d hp
      obtain ⟨ih1, ih2⟩ := ih (d - 1) (by omega)
      rw [runLen_eq, if_pos hp]
      constructor
      · intro i hi
        cases i with
        | zero => simpa using hp
        | succ j =>
          have e1 : d - ((j + 1 : Nat) : Int) = (d - 1) - (j : Int) := by
            push_cast; ring
          rw [e1]
          exact ih1 j (by omega)
      · have e2 : d - ((runLen c (d - 1) + 1 : Nat) : Int) =
            (d - 1) - ((runLen c (d - 1) : Nat) : Int) := by
          push_cast; ring
        rw [e2]
        exact ih2
    · rw [runLen_eq, if_neg hp]
      refine ⟨fun i hi => absurd hi (by omega), ?_⟩
      simpa using hp

theorem runLen_spec (c : Contribs) (d : Int) :
    (∀ i : Nat, i < runLen c d → 0 < countOf c (d - (i : Int))) ∧
    ¬ 0 < countOf c (d - (runLen c d : Int)) :=
  runLen_spec_aux c (countLE c d) d le_rfl

/-- The current-streak fields of the raw result, in terms of the
anchor and the maximal positive run ending there. -/
theorem raw_current_eq (c : Contribs) (today : Int) :
    (calculateStreaksRaw c today).currentStreak =
      (anchorDate c today).elim 0 (runLen c) ∧
    (calculateStreaksRaw c today).currentStreakStart =
      (anchorDate c today).elim none (fun a =>
        if 0 < runLen c a then some (a - (runLen c a : Int) + 1) else none) ∧
    (calculateStreaksRaw c today).currentStreakEnd =
      (anchorDate c today).elim none (fun a =>
        if 0 < runLen c a then some a else none) := by
  unfold calculateStreaksRaw calculateStreaksFuel
  cases ha : anchorDate c today with
  | none => simp [ha]
  | some a =>
    have hfuel : countLE c a < c.length + 1 :=
      Nat.lt_succ_of_le (countLE_le_length c a)
    simp only [ha]
    rw [walkGo_eq c (c.length + 1) a 0 none none hfuel]
    simp [Option.elim]

/-! ### Lemmas about the ascending longest-streak pass -/

theorem longStep_zero (c : Contribs) (st : LongState) (d : Int)
    (h : ¬ 0 < countOf c d) :
    longStep c st d = ⟨0, some d, st.tempStreakStart, st.longestStreak,
      st.longestStreakStart, st.longestStreakEnd⟩ := by
  unfold longStep
  rw [if_neg h]

theorem longStep_posext (c : Contribs) (st : LongState) (d : Int)
    (hp : 0 < countOf c d)
    (hext : (match st.prevDate with
      | none => true
      | some p => d - p == 1) = true) :
    longStep c st d =
      if st.longestStreak < st.tempStreak + 1 then
        ⟨st.tempStreak + 1, some d,
          (if st.tempStreak = 0 then some d else st.tempStreakStart),
          st.tempStreak + 1,
          (if st.tempStreak = 0 then some d else st.tempStreakStart), some d⟩
      else
        ⟨st.tempStreak + 1, some d,
          (if st.tempStreak = 0 then some d else st.tempStreakStart),
          st.longestStreak, st.longestStreakStart, st.longestStreakEnd⟩ := by
  unfold longStep
  rw [if_pos hp]
  simp only [hext, if_true]

theorem longStep_posnoext (c : Contribs) (st : LongState) (d : Int)
    (hp : 0 < countOf c d)
    (hext : (match st.prevDate with
      | none => true
      | some p => d - p == 1) = false) :
    longStep c st d =
      if st.longestStreak < 1 then
        ⟨1, some d, some d, 1, some d, some d⟩
      else
        ⟨1, some d, some d, st.longestStreak, st.longestStreakStart,
          st.longestStreakEnd⟩ := by
  unfold longStep
  rw [if_pos hp]
  simp only [hext, Bool.false_eq_true, if_false]

theorem longStep_prev (c : Contribs) (st : LongState) (d : Int) :
    (longStep c st d).prevDate = some d := by
  by_cases hp : 0 < countOf c d
  · cases hext : (match st.prevDate with
      | none => true
      | some p => d - p == 1) with
    | true => rw [longStep_posext c st d hp hext]; split_ifs <;> rfl
    | false => rw [longStep_posnoext c st d hp hext]; split_ifs <;> rfl
  · rw [longStep_zero c st d hp]

theorem longStep_best_ge (c : Contribs) (st : LongState) (d : Int) :
    (longStep c st d).tempStreak ≤ (longStep c st d).longestStreak := by
  by_cases hp : 0 < countOf c d
  · cases hext : (match st.prevDate with
      | none => true
      | some p => d - p == 1) with
    | true =>
      rw [longStep_posext c st d hp hext]
      split_ifs with hb <;> simp <;> try omega
    | false =>
      rw [longStep_posnoext c st d hp hext]
      split_ifs with hb <;> simp
      omega
  · rw [longStep_zero c st d hp]
    simp

theorem longStep_best_mono (c : Contribs) (st : LongState) (d : Int) :
    st.longestStreak ≤ (longStep c st d).longestStreak := by
  by_cases hp : 0 < countOf c d
  · cases hext : (match st.prevDate with
      | none => true
      | some p => d - p == 1) with
    | true =>
      rw [longStep_posext c st d hp hext]
      split_ifs with hb <;> simp <;> try omega
    | false =>
      rw [longStep_posnoext c st d hp hext]
      split_ifs with hb <;> simp
      omega
  · rw [longStep_zero c st d hp]

theorem longStep_pos_temp (c : Contribs) (st : LongState) (d : Int)
    (hp : 0 < countOf c d) : 1 ≤ (longStep c st d).tempStreak := by
  cases hext : (match st.prevDate with
      | none => true
      | some p => d - p == 1) with
  | true =>
    rw [longStep_posext c st d hp hext]
    split_ifs <;> simp
  | false =>
    rw [longStep_posnoext c st d hp hext]
    split_ifs <;> simp

theorem longStep_extend (c : Contribs) (st : LongState) (d p : Int)
    (hp : 0 < countOf c d) (hprev : st.prevDate = some p) (hgap : d - p = 1) :
    (longStep c st d).tempStreak = st.tempStreak + 1 := by
  have hext : (match st.prevDate with
      | none => true
      | some p => d - p == 1) = true := by
    rw [hprev]
    simp [hgap]
  rw [longStep_posext c st d hp hext]
  split_ifs <;> rfl

theorem longPass_nil (c : Contribs) (st : LongState) :
    longPass c [] st = st := rfl

theorem longPass_cons (c : Contribs) (x : Int) (tl : List Int)
    (st : LongState) :
    longPass c (x :: tl) st = longPass c tl (longStep c st x) := rfl

theorem longPass_best_mono (c : Contribs) :
    ∀ (L : List Int) (st : LongState),
      st.longestStreak ≤ (longPass c L st).longestStreak := by
  intro L
  induction L with
  | nil => intro st; simp [longPass_nil]
  | cons x tl ih =>
    intro st
    rw [longPass_cons]
    exact le_trans (longStep_best_mono c st x) (ih (longStep c st x))

/-- Bound along a contiguous positive run that is being extended:
if the fold state has just consumed day `b` and every day in `(b, e]`
is present with a positive count, the final best streak is at least
the current running streak plus the length of the remaining run. -/
theorem scanRun (c : Contribs) :
    ∀ (L : List Int) (st : LongState) (b e : Int), b ≤ e →
      L.Sorted (· < ·) →
      (∀ y ∈ L, b < y) →
      (∀ x, b < x → x ≤ e → x ∈ L) →
      (∀ x, b < x → x ≤ e → 0 < countOf c x) →
      st.prevDate = some b →
      st.tempStreak ≤ st.longestStreak →
      st.tempStreak + (e - b).toNat ≤ (longPass c L st).longestStreak := by
  intro L
  induction L with
  | nil =>
    intro st b e hbe hsort hgt hmem hpos hprev hinv
    rcases eq_or_lt_of_le hbe with heq | hlt
    · subst heq
      rw [longPass_nil]
      omega
    · exact absurd (hmem (b + 1) (by omega) (by omega)) (List.not_mem_nil _)
  | cons x tl ih =>
    intro st b e hbe hsort hgt hmem hpos hprev hinv
    rcases eq_or_lt_of_le hbe with heq | hlt
    · subst heq
      calc st.tempStreak + (b - b).toNat = st.tempStreak := by omega
        _ ≤ st.longestStreak := hinv
        _ ≤ (longPass c (x :: tl) st).longestStreak := longPass_best_mono c _ st
    · obtain ⟨hxtl, hsorttl⟩ := List.sorted_cons.mp hsort
      have hx : x = b + 1 := by
        have h1 : b + 1 ∈ x :: tl := hmem (b + 1) (by omega) (by omega)
        rcases List.mem_cons.mp h1 with h2 | h2
        · omega
        · have := hxtl _ h2
          have := hgt x (List.mem_cons_self x tl)
          omega
      subst hx
      rw [longPass_cons]
      have hp1 : 0 < countOf c (b + 1) := hpos (b + 1) (by omega) (by omega)
      have htemp := longStep_extend c st (b + 1) b hp1 hprev (by ring)
      have hstep := ih (longStep c st (b + 1)) (b + 1) e (by omega) hsorttl
        (fun y hy => hxtl y hy)
        (fun z hz1 hz2 => by
          have h1 : z ∈ (b + 1) :: tl := hmem z (by omega) hz2
          rcases List.mem_cons.mp h1 with h2 | h2
          · omega
          · exact h2)
        (fun z hz1 hz2 => hpos z (by omega) hz2)
        (longStep_prev c st (b + 1))
        (longStep_best_ge c st (b + 1))
      omega

/-- Whenever every day of `[b, e]` is present with a positive count in
a strictly sorted traversal list, the final best streak is at least
the length of `[b, e]`. -/
theorem scanReach (c : Contribs) :
    ∀ (L : List Int) (st : LongState) (b e : Int), b ≤ e →
      L.Sorted (· < ·) →
      (∀ x, b ≤ x → x ≤ e → x ∈ L) →
      (∀ x, b ≤ x → x ≤ e → 0 < countOf c x) →
      st.tempStreak ≤ st.longestStreak →
      (e - b).toNat + 1 ≤ (longPass c L st).longestStreak := by
  intro L
  induction L with
  | nil =>
    intro st b e hbe hsort hmem hpos hinv
    exact absurd (hmem b le_rfl hbe) (List.not_mem_nil _)
  | cons x tl ih =>
    intro st b e hbe hsort hmem hpos hinv
    obtain ⟨hxtl, hsorttl⟩ := List.sorted_cons.mp hsort
    rcases lt_trichotomy x b with hxb | hxb | hxb
    · rw [longPass_cons]
      refine ih (longStep c st x) b e hbe hsorttl
        (fun z hz1 hz2 => ?_) hpos (longStep_best_ge c st x)
      have h1 : z ∈ x :: tl := hmem z hz1 hz2
      rcases List.mem_cons.mp h1 with h2 | h2
      · omega
      · exact h2
    · subst hxb
      rw [longPass_cons]
      have hp1 : 0 < countOf c x := hpos x le_rfl hbe
      have h1 := longStep_pos_temp c st x hp1
      have hrun := scanRun c tl (longStep c st x) x e hbe hsorttl hxtl
        (fun z hz1 hz2 => by
          have h2 : z ∈ x :: tl := hmem z (by omega) hz2
          rcases List.mem_cons.mp h2 with h3 | h3
          · omega
          · exact h3)
        (fun z hz1 hz2 => hpos z (by omega) hz2)
        (longStep_prev c st x)
        (longStep_best_ge c st x)
      omega
    · have h1 : b ∈ x :: tl := hmem b le_rfl hbe
      rcases List.mem_cons.mp h1 with h2 | h2
      · omega
      · have := hxtl _ h2
        omega

/-! ### Sorted date list facts -/

theorem mem_sortedDates_of_pos (c : Contribs) (d : Int)
    (h : 0 < countOf c d) : d ∈ sortedDates c := by
  obtain ⟨p, hp, hpd⟩ := exists_key_of_countOf_pos c d h
  have : d ∈ seriesKeys c := by
    unfold seriesKeys
    exact hpd ▸ List.mem_map_of_mem Prod.fst hp
  unfold sortedDates
  exact (List.perm_insertionSort _ _).mem_iff.mpr this

theorem sortedDates_sorted_lt (c : Contribs) (hwf : WF c) :
    (sortedDates c).Sorted (· < ·) := by
  have h1 : (sortedDates c).Sorted (· ≤ ·) :=
    List.sorted_insertionSort _ _
  have h2 : (sortedDates c).Nodup :=
    (List.perm_insertionSort _ _).nodup_iff.mpr hwf
  exact List.Sorted.lt_of_le h1 h2

/-! ### The boundary-ordering invariant of the longest pass -/

theorem initLongState_inv : LongInv initLongState :=
  ⟨fun h => absurd h (lt_irrefl 0), fun h => absurd h (lt_irrefl 0)⟩

theorem longStep_inv (c : Contribs) (st : LongState) (d : Int)
    (h : LongInv st) : LongInv (longStep c st d) := by
  obtain ⟨h1, h2⟩ := h
  by_cases hp : 0 < countOf c d
  · cases hext : (match st.prevDate with
      | none => true
      | some p => d - p == 1) with
    | true =>
      have hs : ∃ s, (if st.tempStreak = 0 then some d
          else st.tempStreakStart) = some s ∧ s ≤ d := by
        by_cases h0 : st.tempStreak = 0
        · exact ⟨d, by rw [if_pos h0], le_rfl⟩
        · obtain ⟨s, p, hss, hpp, hsp⟩ := h1 (Nat.pos_of_ne_zero h0)
          rw [hpp] at hext
          have hgap : d - p = 1 := by simpa using hext
          exact ⟨s, by rw [if_neg h0, hss], by omega⟩
      obtain ⟨s, hss, hsd⟩ := hs
      rw [longStep_posext c st d hp hext]
      by_cases hb : st.longestStreak < st.tempStreak + 1
      · rw [if_pos hb]
        exact ⟨fun _ => ⟨s, d, hss, rfl, hsd⟩, fun _ => ⟨s, d, hss, rfl, hsd⟩⟩
      · rw [if_neg hb]
        exact ⟨fun _ => ⟨s, d, hss, rfl, hsd⟩, fun hl => h2 hl⟩
    | false =>
      rw [longStep_posnoext c st d hp hext]
      by_cases hb : st.longestStreak < 1
      · rw [if_pos hb]
        exact ⟨fun _ => ⟨d, d, rfl, rfl, le_rfl⟩,
          fun _ => ⟨d, d, rfl, rfl, le_rfl⟩⟩
      · rw [if_neg hb]
        exact ⟨fun _ => ⟨d, d, rfl, rfl, le_rfl⟩, fun hl => h2 hl⟩
  · rw [longStep_zero c st d hp]
    exact ⟨fun htemp => absurd htemp (lt_irrefl 0), fun hl => h2 hl⟩

theorem longPass_inv (c : Contribs) :
    ∀ (L : List Int) (st : LongState), LongInv st →
      LongInv (longPass c L st) := by
  intro L
  induction L with
  | nil => intro st h; exact h
  | cons x tl ih =>
    intro st h
    rw [longPass_cons]
    exact ih (longStep c st x) (longStep_inv c st x h)

/-- The longest-streak fields of the raw result are those of the
ascending pass over the sorted dates. -/
theorem raw_longest_eq (c : Contribs) (today : Int) :
    (calculateStreaksRaw c today).longestStreak =
      (longPass c (sortedDates c) initLongState).longestStreak ∧
    (calculateStreaksRaw c today).longestStreakStart =
      (longPass c (sortedDates c) initLongState).longestStreakStart ∧
    (calculateStreaksRaw c today).longestStreakEnd =
      (longPass c (sortedDates c) initLongState).longestStreakEnd :=
  ⟨rfl, rfl, rfl⟩

/-- C4: whenever a reported streak length is positive, its two
boundary dates are non-null and correctly ordered (start ≤ end),
both for the current streak and for the longest streak. -/
theorem result_boundary_order (c : Contribs) (today : Int) :
    (0 < (calculateStreaksRaw c today).currentStreak →
      ∃ s e, (calculateStreaksRaw c today).currentStreakStart = some s ∧
        (calculateStreaksRaw c today).currentStreakEnd = some e ∧ s ≤ e) ∧
    (0 < (calculateStreaksRaw c today).longestStreak →
      ∃ s e, (calculateStreaksRaw c today).longestStreakStart = some s ∧
        (calculateStreaksRaw c today).longestStreakEnd = some e ∧ s ≤ e) := by
  obtain ⟨hcur, hcs, hce⟩ := raw_current_eq c today
  constructor
  · intro hpos
    rw [hcur] at hpos
    cases ha : anchorDate c today with
    | none =>
      rw [ha] at hpos
      simp [Option.elim] at hpos
    | some a =>
      rw [ha] at hpos hcs hce
      simp only [Option.elim] at hpos hcs hce
      rw [if_pos hpos] at hcs hce
      exact ⟨a - (runLen c a : Int) + 1, a, hcs, hce, by omega⟩
  · intro hpos
    obtain ⟨h1eq, h2eq, h3eq⟩ := raw_longest_eq c today
    obtain ⟨-, h2⟩ :=
      longPass_inv c (sortedDates c) initLongState initLongState_inv
    rw [h1eq] at hpos
    obtain ⟨s, e, hs, he, hse⟩ := h2 hpos
    exact ⟨s, e, by rw [h2eq, hs], by rw [h3eq, he], hse⟩

/-- C5: in the newer `calculateStreaks`, the independently computed
current streak can never exceed the reported longest streak: the
contiguous positive run found by the grace-anchored backward walk is
also found by the full-history ascending scan. -/
theorem streak_current_le_longest (c : Contribs) (today : Int)
    (hwf : WF c) :
    (calculateStreaksRaw c today).currentStreak ≤
      (calculateStreaksRaw c today).longestStreak := by
  obtain ⟨hcur, -, -⟩ := raw_current_eq c today
  obtain ⟨hlong, -, -⟩ := raw_longest_eq c today
  rw [hcur, hlong]
  cases ha : anchorDate c today with
  | none => simp [Option.elim]
  | some a =>
    simp only [Option.elim]
    rcases Nat.eq_zero_or_pos (runLen c a) with h0 | h0
    · rw [h0]
      exact Nat.zero_le _
    · obtain ⟨hrun, -⟩ := runLen_spec c a
      have hposx : ∀ x : Int, a - (runLen c a : Int) + 1 ≤ x → x ≤ a →
          0 < countOf c x := by
        intro x hx1 hx2
        have h3 : (a - x).toNat < runLen c a := by omega
        have h4 := hrun (a - x).toNat h3
        have h5 : a - (((a - x).toNat : Nat) : Int) = x := by omega
        rwa [h5] at h4
      have hmem : ∀ x : Int, a - (runLen c a : Int) + 1 ≤ x → x ≤ a →
          x ∈ sortedDates c :=
        fun x hx1 hx2 => mem_sortedDates_of_pos c x (hposx x hx1 hx2)
      have hreach := scanReach c (sortedDates c) initLongState
        (a - (runLen c a : Int) + 1) a (by omega)
        (sortedDates_sorted_lt c hwf) hmem hposx le_rfl
      omega

/-! ### Totals -/

theorem map_countOf_keys (c : Contribs) (hwf : WF c) :
    (seriesKeys c).map (countOf c) = c.map Prod.snd := by
  induction c with
  | nil => rfl
  | cons q rest ih =>
    have hwf2 : WF rest := by
      unfold WF seriesKeys at hwf ⊢
      exact (List.nodup_cons.mp hwf).2
    have hq : q.1 ∉ seriesKeys rest := by
      unfold WF seriesKeys at hwf
      exact (List.nodup_cons.mp hwf).1
    have h1 : countOf (q :: rest) q.1 = q.2 := by
      unfold countOf
      rw [lookup_cons, if_pos rfl]
      rfl
    have h2 : ∀ k ∈ seriesKeys rest, countOf (q :: rest) k = countOf rest k := by
      intro k hk
      have hne : q.1 ≠ k := fun h => hq (h ▸ hk)
      unfold countOf
      rw [lookup_cons, if_neg hne]
    calc (seriesKeys (q :: rest)).map (countOf (q :: rest))
        = countOf (q :: rest) q.1 ::
            (seriesKeys rest).map (countOf (q :: rest)) := rfl
      _ = q.2 :: (seriesKeys rest).map (countOf rest) := by
          rw [h1, List.map_congr_left h2]
      _ = (q :: rest).map Prod.snd := by rw [ih hwf2, List.map_cons]

/-- C6: the reported total is the sum of every count in the series
(zero counts included), it is non-negative, and it is zero for the
empty series. -/
theorem total_is_sum (c : Contribs) (today : Int) (hwf : WF c) :
    (calculateStreaksRaw c today).totalContributions = (c.map Prod.snd).sum ∧
    0 ≤ (calculateStreaksRaw c today).totalContributions ∧
    (calculateStreaksRaw [] today).totalContributions = 0 := by
  refine ⟨?_, Nat.zero_le _, rfl⟩
  have h1 : (calculateStreaksRaw c today).totalContributions =
      ((sortedDates c).map (countOf c)).sum := rfl
  have hperm : (sortedDates c).Perm (seriesKeys c) :=
    List.perm_insertionSort _ _
  rw [h1, (hperm.map (countOf c)).sum_eq, map_countOf_keys c hwf]

/-! ### The aggregation map -/

theorem lookup_append (m1 m2 : Contribs) (x : Int) :
    lookup (m1 ++ m2) x = (lookup m1 x).or (lookup m2 x) := by
  induction m1 with
  | nil => simp [lookup]
  | cons q rest ih =>
    rw [List.cons_append, lookup_cons, lookup_cons, ih]
    by_cases h : q.1 = x
    · simp [h]
    · simp [h]

theorem lookup_replace (m : Contribs) (d : Int) (v : Nat) (x : Int) :
    lookup (m.map (fun p => if p.1 = d then (d, v) else p)) x =
      if x = d then (if m.any (fun p => p.1 == d) then some v else none)
      else lookup m x := by
  by_cases hx : x = d
  · subst hx
    rw [if_pos rfl]
    induction m with
    | nil => simp [lookup]
    | cons q rest ih =>
      rw [List.map_cons, List.any_cons]
      by_cases hq : q.1 = x
      · rw [if_pos hq, lookup_cons, if_pos rfl]
        have hb : (q.1 == x) = true := by simp [hq]
        rw [hb, Bool.true_or, if_pos rfl]
      · rw [if_neg hq, lookup_cons, if_neg hq, ih]
        have hb : (q.1 == x) = false := by simp [hq]
        rw [hb, Bool.false_or]
  · rw [if_neg hx]
    induction m with
    | nil => rfl
    | cons q rest ih =>
      rw [List.map_cons]
      by_cases hq : q.1 = d
      · rw [if_pos hq, lookup_cons, lookup_cons]
        have h1 : ¬ ((d, v) : Int × Nat).1 = x := fun h => hx h.symm
        have h2 : ¬ q.1 = x := by rw [hq]; exact fun h => hx h.symm
        rw [if_neg h1, if_neg h2, ih]
      · rw [if_neg hq, lookup_cons, lookup_cons]
        by_cases hqx : q.1 = x
        · rw [if_pos hqx, if_pos hqx]
        · rw [if_neg hqx, if_neg hqx, ih]

theorem lookup_insertObs (m : Contribs) (d : Int) (v : Nat) (x : Int) :
    lookup (insertObs m d v) x = if x = d then some v else lookup m x := by
  unfold insertObs
  by_cases hc : m.any (fun p => p.1 == d)
  · rw [if_pos hc, lookup_replace, hc]
    by_cases hx : x = d <;> simp [hx]
  · rw [if_neg hc, lookup_append]
    have hnone : lookup m d = none := by
      unfold lookup
      have hfind : m.find? (fun p => p.1 == d) = none := by
        rw [List.find?_eq_none]
        intro p hp
        simp only [Bool.not_eq_true, beq_eq_false_iff_ne]
        intro hpd
        rw [Bool.not_eq_true] at hc
        have := List.any_eq_false.mp hc p hp
        simp [hpd] at this
      rw [hfind]
      rfl
    by_cases hx : x = d
    · subst hx
      rw [hnone, lookup_cons]
      simp
    · rw [lookup_cons]
      have h2 : ¬ ((d, v) : Int × Nat).1 = x := fun h => hx h.symm
      rw [if_neg h2, if_neg hx]
      simp [lookup]

theorem lookup_aggLoop (obs : List (Int × Nat)) :
    ∀ (m : Contribs) (x : Int),
      lookup (obs.foldl (fun acc p => insertObs acc p.1 p.2) m) x =
        match obs.reverse.find? (fun p => p.1 == x) with
        | some p => some p.2
        | none => lookup m x := by
  induction obs with
  | nil => intro m x; rfl
  | cons q rest ih =>
    intro m x
    rw [List.foldl_cons, ih, List.reverse_cons, List.find?_append]
    cases hf : rest.reverse.find? (fun p => p.1 == x) with
    | some p => simp
    | none =>
      simp only [Option.none_or]
      rw [lookup_insertObs]
      by_cases hq : q.1 = x
      · simp [List.find?_cons, hq]
      · have hqx : ¬ x = q.1 := fun h => hq h.symm
        simp [List.find?_cons, hq, hqx]

theorem lookup_aggregateYears (ys : List (List (Int × Nat))) (d : Int) :
    lookup (aggregateYears ys) d =
      (ys.flatten.reverse.find? (fun p => p.1 == d)).map Prod.snd := by
  unfold aggregateYears
  rw [lookup_aggLoop]
  cases hf : ys.flatten.reverse.find? (fun p => p.1 == d) with
  | some p => rfl
  | none => rfl

/-- C7: aggregation builds a date-keyed map by in-order assignment:
a lookup returns the value of the last observation written for that
date (so on duplicate dates the later-processed year wins), a date
emitted by no input year is absent from the map, and dropping earlier
years does not change the value of a date emitted by the later
years. -/
theorem aggregate_last_wins (ys : List (List (Int × Nat))) (d : Int) :
    (lookup (aggregateYears ys) d =
      (ys.flatten.reverse.find? (fun p => p.1 == d)).map Prod.snd) ∧
    ((∀ p ∈ ys.flatten, p.1 ≠ d) → lookup (aggregateYears ys) d = none) ∧
    (∀ ys1 ys2, ys = ys1 ++ ys2 → (∃ p ∈ ys2.flatten, p.1 = d) →
      lookup (aggregateYears ys) d = lookup (aggregateYears ys2) d) := by
  refine ⟨lookup_aggregateYears ys d, ?_, ?_⟩
  · intro h
    rw [lookup_aggregateYears]
    have hfind : ys.flatten.reverse.find? (fun p => p.1 == d) = none := by
      rw [List.find?_eq_none]
      intro p hp
      simp only [Bool.not_eq_true, beq_eq_false_iff_ne]
      exact h p (List.mem_reverse.mp hp)
    rw [hfind]
    rfl
  · intro ys1 ys2 heq hex
    subst heq
    rw [lookup_aggregateYears, lookup_aggregateYears, List.flatten_append,
      List.reverse_append, List.find?_append]
    cases hf : ys2.flatten.reverse.find? (fun p => p.1 == d) with
    | some p => simp
    | none =>
      obtain ⟨p, hp, hpd⟩ := hex
      have := List.find?_eq_none.mp hf p (List.mem_reverse.mpr hp)
      simp [hpd] at this

/-! ### Anchor policy and the backward walk (claims C1, C2) -/

/-- C1: the current-streak walk is anchored at today when today has a
positive count, else at the preceding day when that day has a
positive count; otherwise the current streak is 0 with both boundary
dates null.  The walk itself computes the maximal positive run ending
at the chosen anchor. -/
theorem anchor_policy (c : Contribs) (today : Int) :
    (0 < countOf c today → anchorDate c today = some today) ∧
    (countOf c today = 0 → 0 < countOf c (today - 1) →
      anchorDate c today = some (today - 1)) ∧
    (countOf c today = 0 → countOf c (today - 1) = 0 →
      (calculateStreaksRaw c today).currentStreak = 0 ∧
      (calculateStreaksRaw c today).currentStreakStart = none ∧
      (calculateStreaksRaw c today).currentStreakEnd = none) ∧
    (calculateStreaksRaw c today).currentStreak =
      (anchorDate c today).elim 0 (runLen c) := by
  obtain ⟨hcur, hcs, hce⟩ := raw_current_eq c today
  refine ⟨?_, ?_, ?_, hcur⟩
  · intro h
    unfold anchorDate
    rw [if_pos h]
  · intro h0 h1
    unfold anchorDate
    rw [if_neg (by omega), if_pos h1]
  · intro h0 h1
    have ha : anchorDate c today = none := by
      unfold anchorDate
      rw [if_neg (by omega), if_neg (by omega)]
    rw [ha] at hcur hcs hce
    exact ⟨hcur, hcs, hce⟩

/-- C2: every day counted by the current-streak walk is present in
the series with a strictly positive count and the counted days form
the contiguous run `anchor, anchor-1, …` ending at the anchor (which
is the reported `currentStreakEnd`); the walk stops, non-inclusively,
at the first day going backward that is absent or has a zero count. -/
theorem walk_counts_positive_run (c : Contribs) (today : Int) (a : Int)
    (ha : anchorDate c today = some a) :
    (∀ i : Nat, i < (calculateStreaksRaw c today).currentStreak →
      0 < countOf c (a - (i : Int))) ∧
    (0 < (calculateStreaksRaw c today).currentStreak →
      (calculateStreaksRaw c today).currentStreakEnd = some a) ∧
    ¬ 0 < countOf c
      (a - ((calculateStreaksRaw c today).currentStreak : Int)) := by
  obtain ⟨hcur, -, hce⟩ := raw_current_eq c today
  rw [ha] at hcur hce
  simp only [Option.elim] at hcur hce
  obtain ⟨h1, h2⟩ := runLen_spec c a
  rw [hcur]
  exact ⟨h1, fun hpos => by rw [hce, if_pos hpos], h2⟩

/-! ### The ascending pass computes the longest streak (claim C3) -/

/-- C3: the longest streak is computed by the single ascending pass
`longPass` over the sorted dates, whose step extends the running run
by one exactly on a positive count one calendar day after the
previously visited date, resets it to 1 on a positive count after any
other gap (and on the very first visited date), resets it to 0 on a
zero count, and updates the best length together with its start/end
boundary dates exactly when the running length strictly exceeds the
best seen so far. -/
theorem longest_scan_characterization (c : Contribs) (today : Int) :
    ((calculateStreaksRaw c today).longestStreak =
        (longPass c (sortedDates c) initLongState).longestStreak ∧
      (calculateStreaksRaw c today).longestStreakStart =
        (longPass c (sortedDates c) initLongState).longestStreakStart ∧
      (calculateStreaksRaw c today).longestStreakEnd =
        (longPass c (sortedDates c) initLongState).longestStreakEnd) ∧
    (∀ (st : LongState) (d : Int),
      (0 < countOf c d → ∀ p, st.prevDate = some p → d - p = 1 →
        (longStep c st d).tempStreak = st.tempStreak + 1) ∧
      (0 < countOf c d → st.prevDate = none → st.tempStreak = 0 →
        (longStep c st d).tempStreak = 1 ∧
        (longStep c st d).tempStreakStart = some d) ∧
      (0 < countOf c d → ∀ p, st.prevDate = some p → d - p ≠ 1 →
        (longStep c st d).tempStreak = 1 ∧
        (longStep c st d).tempStreakStart = some d) ∧
      (countOf c d = 0 → (longStep c st d).tempStreak = 0) ∧
      (st.longestStreak < (longStep c st d).tempStreak →
        (longStep c st d).longestStreak = (longStep c st d).tempStreak ∧
        (longStep c st d).longestStreakStart =
          (longStep c st d).tempStreakStart ∧
        (longStep c st d).longestStreakEnd = some d) ∧
      ((longStep c st d).tempStreak ≤ st.longestStreak →
        (longStep c st d).longestStreak = st.longestStreak ∧
        (longStep c st d).longestStreakStart = st.longestStreakStart ∧
        (longStep c st d).longestStreakEnd = st.longestStreakEnd)) := by
  refine ⟨⟨rfl, rfl, rfl⟩, ?_⟩
  intro st d
  refine ⟨?_, ?_, ?_, ?_, ?_, ?_⟩
  · intro hp p hprev hgap
    exact longStep_extend c st d p hp hprev hgap
  · intro hp hprev h0
    have hext : (match st.prevDate with
        | none => true
        | some p => d - p == 1) = true := by rw [hprev]
    rw [longStep_posext c st d hp hext]
    by_cases hb : st.longestStreak < st.tempStreak + 1
    · rw [if_pos hb]
      exact ⟨by simp [h0], by simp [h0]⟩
    · rw [if_neg hb]
      exact ⟨by simp [h0], by simp [h0]⟩
  · intro hp p hprev hgap
    have hext : (match st.prevDate with
        | none => true
        | some p => d - p == 1) = false := by
      rw [hprev]
      simpa using hgap
    rw [longStep_posnoext c st d hp hext]
    by_cases hb : st.longestStreak < 1
    · rw [if_pos hb]
      exact ⟨rfl, rfl⟩
    · rw [if_neg hb]
      exact ⟨rfl, rfl⟩
  · intro h0
    rw [longStep_zero c st d (by omega)]
  · intro hlt
    by_cases hp : 0 < countOf c d
    · cases hext : (match st.prevDate with
        | none => true
        | some p => d - p == 1) with
      | true =>
        rw [longStep_posext c st d hp hext] at hlt ⊢
        by_cases hb : st.longestStreak < st.tempStreak + 1
        · rw [if_pos hb]
          exact ⟨rfl, rfl, rfl⟩
        · rw [if_neg hb] at hlt
          exact absurd hlt hb
      | false =>
        rw [longStep_posnoext c st d hp hext] at hlt ⊢
        by_cases hb : st.longestStreak < 1
        · rw [if_pos hb]
          exact ⟨rfl, rfl, rfl⟩
        · rw [if_neg hb] at hlt
          exact absurd hlt hb
    · rw [longStep_zero c st d hp] at hlt
      simp at hlt
  · intro hle
    by_cases hp : 0 < countOf c d
    · cases hext : (match st.prevDate with
        | none => true
        | some p => d - p == 1) with
      | true =>
        rw [longStep_posext c st d hp hext] at hle ⊢
        by_cases hb : st.longestStreak < st.tempStreak + 1
        · rw [if_pos hb] at hle
          simp at hle
          omega
        · rw [if_neg hb]
          exact ⟨rfl, rfl, rfl⟩
      | false =>
        rw [longStep_posnoext c st d hp hext] at hle ⊢
        by_cases hb : st.longestStreak < 1
        · rw [if_pos hb] at hle
          simp at hle
          omega
        · rw [if_neg hb]
          exact ⟨rfl, rfl, rfl⟩
    · rw [longStep_zero c st d hp]
      exact ⟨rfl, rfl, rfl⟩

/-! ### Determinism and the single clock read (claim C9) -/

/-- C9: the computation is a pure function of the series and the
single UTC day captured at its start: two runs over the same
unchanged series whose wall clocks agree at that one initial read
produce identical results — both `today` and the grace day
`today - 1` are derived from that one reading. -/
theorem clock_read_once (c : Contribs) (clock1 clock2 : Nat → Int)
    (h : clock1 0 = clock2 0) :
    calculateStreaksClocked c clock1 = calculateStreaksClocked c clock2 ∧
    calculateStreaksClocked c clock1 = calculateStreaks c (clock1 0) := by
  constructor
  · unfold calculateStreaksClocked
    rw [h]
  · rfl

/-! ### Totality of the computation (claim C10) -/

/-- C10: the pure computation is total: the backward walk terminates
on every finite series — any fuel beyond the number of entries yields
the very same result — so `calculateStreaks` (including the display
formatting by `formatDateForDisplay`) returns a result for every
well-formed series, the empty one included. -/
theorem computation_total (c : Contribs) (today : Int) (fuel : Nat)
    (h : c.length < fuel) :
    calculateStreaksFuel c today fuel = calculateStreaksRaw c today ∧
    calculateStreaksFmtFuel c today fuel = calculateStreaks c today := by
  have h1 : calculateStreaksFuel c today fuel =
      calculateStreaksRaw c today := by
    unfold calculateStreaksRaw
    cases ha : anchorDate c today with
    | none => simp only [calculateStreaksFuel, ha]
    | some a =>
      have hle : countLE c a ≤ c.length := countLE_le_length c a
      simp only [calculateStreaksFuel, ha]
      rw [walkGo_eq c fuel a 0 none none (by omega),
        walkGo_eq c (c.length + 1) a 0 none none (by omega)]
  refine ⟨h1, ?_⟩
  unfold calculateStreaksFmtFuel calculateStreaks
  rw [h1]

/-! ### The error surface of the fetcher (claim C8) -/

/-- C8 counterexample: an upstream subject-not-found failure is NOT
distinguishable by its tag from a generic upstream query failure —
the catch-all in `fetchStreak` re-wraps the inner
`USER_NOT_FOUND`-tagged "Could not fetch user." error, so both kinds
reach the caller with the same `GRAPHQL_ERROR` tag and differ only in
their message text. -/
theorem fetch_tag_collision :
    fetchStreakModel (fun _ => none) (some "alice") Upstream.yearsUserNull 0 =
      .error ⟨"Could not fetch user.", ErrTag.GRAPHQL_ERROR, none⟩ ∧
    fetchStreakModel (fun _ => none) (some "alice")
        (Upstream.requestThrew none) 0 =
      .error ⟨"Could not fetch streak data.", ErrTag.GRAPHQL_ERROR, none⟩ := by
  exact ⟨rfl, rfl⟩

/-- C8 (amended): every failure of the fetcher is a single
`TaggedFailure` carrying a primary message and an optional secondary
detail; a missing user identifier is rejected before any upstream
outcome is examined (with tag `USER_NOT_FOUND`); but every failure
raised inside the data-acquisition block — the upstream
subject-not-found case included — reaches the caller re-wrapped with
the generic `GRAPHQL_ERROR` tag, distinguishable from other upstream
failures only by its message text. -/
theorem fetch_error_model (sec : ErrTag → Option String)
    (username : Option String) (u : Upstream) (today : Int) :
    (usernameMissing username = true →
      fetchStreakModel sec username u today =
        .error (mkCustomError sec "Missing username parameter"
          ErrTag.USER_NOT_FOUND)) ∧
    (usernameMissing username = false →
      (fetchStreakModel sec username Upstream.yearsUserNull today =
        .error (mkCustomError sec "Could not fetch user."
          ErrTag.GRAPHQL_ERROR)) ∧
      (∀ ys, fetchStreakModel sec username (Upstream.calUserNull ys) today =
        .error (mkCustomError sec "Could not fetch user."
          ErrTag.GRAPHQL_ERROR)) ∧
      (∀ m, fetchStreakModel sec username (Upstream.requestThrew m) today =
        .error (mkCustomError sec (m.getD "Could not fetch streak data.")
          ErrTag.GRAPHQL_ERROR)) ∧
      (∀ ys days, fetchStreakModel sec username (Upstream.ok ys days) today =
        .ok (calculateStreaksRaw (aggregateYears days) today))) := by
  constructor
  · intro h
    unfold fetchStreakModel
    rw [if_pos h]
  · intro h
    have hneg : ¬ usernameMissing username = true := by rw [h]; simp
    refine ⟨?_, fun ys => ?_, fun m => ?_, fun ys days => ?_⟩ <;>
      · unfold fetchStreakModel
        rw [if_neg hneg]

/-! ### Concrete checks of the theorems with hypotheses -/

theorem anchor_policy_check :
    anchorDate [((10 : Int), 2)] 10 = some 10 ∧
    (calculateStreaksRaw [((3 : Int), 1)] 10).currentStreak = 0 :=
  ⟨(anchor_policy [((10 : Int), 2)] 10).1 (by decide),
   ((anchor_policy [((3 : Int), 1)] 10).2.2.1 (by decide) (by decide)).1⟩

theorem walk_counts_positive_run_check :
    ¬ 0 < countOf [((9 : Int), 2), (10, 1)]
        ((10 : Int) -
          ((calculateStreaksRaw [((9 : Int), 2), (10, 1)] 10).currentStreak :
            Int)) :=
  (walk_counts_positive_run [((9 : Int), 2), (10, 1)] 10 10 (by decide)).2.2

theorem longest_scan_check :
    (longStep [((4 : Int), 2), (5, 3)]
      ⟨1, some 4, some 4, 1, some 4, some 4⟩ 5).tempStreak = 1 + 1 :=
  ((longest_scan_characterization [((4 : Int), 2), (5, 3)] 0).2
    ⟨1, some 4, some 4, 1, some 4, some 4⟩ 5).1 (by decide) 4 rfl (by decide)

theorem result_boundary_order_check :
    ∃ s e,
      (calculateStreaksRaw [((0 : Int), 1)] 0).currentStreakStart = some s ∧
      (calculateStreaksRaw [((0 : Int), 1)] 0).currentStreakEnd = some e ∧
      s ≤ e :=
  (result_boundary_order [((0 : Int), 1)] 0).1 (by decide)

theorem streak_current_le_longest_check :
    (calculateStreaksRaw [((0 : Int), 1)] 0).currentStreak ≤
      (calculateStreaksRaw [((0 : Int), 1)] 0).longestStreak :=
  streak_current_le_longest [((0 : Int), 1)] 0 (by decide)

theorem total_is_sum_check :
    (calculateStreaksRaw [((1 : Int), 2), (2, 0)] 5).totalContributions =
      ([((1 : Int), 2), (2, 0)].map Prod.snd).sum :=
  (total_is_sum [((1 : Int), 2), (2, 0)] 5 (by decide)).1

theorem aggregate_last_wins_check :
    lookup (aggregateYears [[((0 : Int), 1)], [(0, 2)]]) 0 =
      lookup (aggregateYears [[((0 : Int), 2)]]) 0 :=
  (aggregate_last_wins [[((0 : Int), 1)], [(0, 2)]] 0).2.2
    [[((0 : Int), 1)]] [[(0, 2)]] rfl (by decide)

theorem fetch_error_model_check :
    fetchStreakModel (fun _ => none) none Upstream.yearsUserNull 0 =
      .error (mkCustomError (fun _ => none) "Missing username parameter"
        ErrTag.USER_NOT_FOUND) :=
  (fetch_error_model (fun _ => none) none Upstream.yearsUserNull 0).1 rfl

theorem clock_read_once_check :
    calculateStreaksClocked [] (fun _ => 0) =
      calculateStreaksClocked [] (fun n => (n : Int)) :=
  (clock_read_once [] (fun _ => 0) (fun n => (n : Int)) rfl).1

theorem computation_total_check :
    calculateStreaksFuel [((0 : Int), 1)] 0 5 =
      calculateStreaksRaw [((0 : Int), 1)] 0 :=
  (computation_total [((0 : Int), 1)] 0 5 (by decide)).1

end StreakFast
